import Mathlib

/-!
Shallow embedding of `phy/cluster/manual/cluster_info.py`: the generic
attribute store `BaseClusterInfo`, the history-tracked `ClusterMetadata`
(undo/redo against a frozen baseline), and the cached-statistics store
`ClusterStats`, together with proofs of the specified properties.

Entity ids are `Nat`, field names are `String`, field values range over a
type parameter `α`.  Python dictionaries become association lists that
preserve insertion order (updating an existing key keeps its position,
a new key is appended), matching dict semantics.
-/

namespace Phy

/-- A field's declared default, as a tagged specification: a constant value,
a zero-argument generator, or a one-argument function of the entity id.
This models the source's runtime arity dispatch in `_default_value`
(`_fun_arg_count` lives outside the embedded file; the spec's design notes
prescribe exactly this tagged representation). -/
inductive Dflt (α : Type) where
  | constant : α → Dflt α
  | genZero : (Unit → α) → Dflt α
  | perEntity : (Nat → α) → Dflt α

/-- `_default_value(field, default, cluster)`: evaluate a default with the
correct arity (constant used as-is, zero-argument factory called with no
arguments, one-argument factory called with the entity id). -/
def default_value {α : Type} (d : Dflt α) (cluster : Nat) : α :=
  match d with
  | .constant v => v
  | .genZero f => f ()
  | .perEntity f => f cluster

/-- A record of named field values for one entity (a Python dict). -/
abbrev Record (α : Type) := List (String × α)

/-- The store's data: entity id to record (a Python dict). -/
abbrev Data (α : Type) := List (Nat × Record α)

/-- Lookup in an id-keyed association list. -/
def alookup {β : Type} (k : Nat) : List (Nat × β) → Option β
  | [] => none
  | (k', v) :: t => if k = k' then some v else alookup k t

/-- Lookup in a field-keyed record. -/
def rlookup {α : Type} (f : String) : Record α → Option α
  | [] => none
  | (f', v) :: t => if f = f' then some v else rlookup f t

/-- Dict assignment `r[f] = v` on a record: overwrite in place if the key
exists, append otherwise. -/
def rupdate {α : Type} (f : String) (v : α) : Record α → Record α
  | [] => [(f, v)]
  | (f', v') :: t => if f = f' then (f, v) :: t else (f', v') :: rupdate f v t

/-- Dict assignment `d[c] = r` on the data mapping. -/
def dupdate {α : Type} (c : Nat) (r : Record α) : Data α → Data α
  | [] => [(c, r)]
  | (c', r') :: t => if c = c' then (c, r) :: t else (c', r') :: dupdate c r t

/-- Dict deletion `del d[c]` (no-op when the key is absent). -/
def dremove {α : Type} (c : Nat) : Data α → Data α
  | [] => []
  | (c', r') :: t => if c = c' then t else (c', r') :: dremove c t

/-- `_default_info(fields, cluster)`: the default record of a cluster, each
declared field paired with its default evaluated for that cluster. -/
def default_info {α : Type} (fields : List (String × Dflt α)) (cluster : Nat) :
    Record α :=
  fields.map (fun p => (p.1, default_value p.2 cluster))

/-- `BaseClusterInfo`: the field descriptors (an ordered dict of field name
to default specification) plus the per-cluster data. -/
structure BaseClusterInfo (α : Type) where
  fields : List (String × Dflt α)
  data : Data α

namespace BaseClusterInfo

/-- `info[key] = value` for one cluster: `self._data[cluster][field] = value`.
Accessing `self._data[cluster]` first materializes the default record when
the cluster is absent (`ClusterDefaultDict.__missing__` with the one-argument
factory `lambda cluster: _default_info(fields, cluster)`), then the field is
overwritten. -/
def setOne {α : Type} (s : BaseClusterInfo α) (c : Nat) (f : String) (v : α) :
    BaseClusterInfo α :=
  match alookup c s.data with
  | some r => { s with data := dupdate c (rupdate f v r) s.data }
  | none => { s with data := dupdate c (rupdate f v (default_info s.fields c)) s.data }

/-- `set` may receive a scalar (broadcast to every target id) or a
per-entity sequence of values (models Python's `hasattr(values, '__len__')`
test). -/
inductive Values (α : Type) where
  | scalar : α → Values α
  | seq : List α → Values α

/-- The assignment loops of `BaseClusterInfo.set`, after the length check:
positional assignment for a sequence, broadcast for a scalar. -/
def assign {α : Type} (s : BaseClusterInfo α) (clusters : List Nat) (f : String)
    (values : Values α) : BaseClusterInfo α :=
  match values with
  | .seq vs => (clusters.zip vs).foldl (fun s p => s.setOne p.1 f p.2) s
  | .scalar v => clusters.foldl (fun s c => s.setOne c f v) s

/-- The error raised by `set` on a length mismatch (the spec's
`ArityMismatch`; the source's `assert len(clusters) == len(values)`). -/
inductive StoreError where
  | arityMismatch : StoreError
deriving DecidableEq, Repr

/-- `BaseClusterInfo.set(clusters, field, values)`: when `values` is a
sequence its length must equal the number of clusters — the check happens
before any assignment, so a failing call mutates nothing. -/
def set {α : Type} (s : BaseClusterInfo α) (clusters : List Nat) (f : String)
    (values : Values α) : Except StoreError (BaseClusterInfo α) :=
  match values with
  | .seq vs =>
    if clusters.length = vs.length then .ok (s.assign clusters f (.seq vs))
    else .error .arityMismatch
  | .scalar v => .ok (s.assign clusters f (.scalar v))

/-- `BaseClusterInfo.unset(clusters)`: delete each cluster's record if
present (absent ids are a no-op). -/
def unset {α : Type} (s : BaseClusterInfo α) (clusters : List Nat) :
    BaseClusterInfo α :=
  clusters.foldl (fun s c => { s with data := dremove c s.data }) s

/-- `self[cluster]` (`__getitem__` through the `ClusterDefaultDict`):
return the cluster's record, materializing and caching the default record
on a miss.  The third component instruments the call: the names of the
fields whose default factory was invoked (all declared fields on a miss,
none on a hit). -/
def getitem {α : Type} (s : BaseClusterInfo α) (c : Nat) :
    Record α × BaseClusterInfo α × List String :=
  match alookup c s.data with
  | some r => (r, s, [])
  | none =>
    (default_info s.fields c,
     { s with data := dupdate c (default_info s.fields c) s.data },
     s.fields.map (fun p => p.1))

end BaseClusterInfo

/-- `_cluster_info(fields, data)`: initialize the structure from optional
initial data — each given cluster gets the default record first, then the
specified values overwrite the corresponding fields. -/
def cluster_info {α : Type} (fields : List (String × Dflt α))
    (data : List (Nat × Record α)) : Data α :=
  data.foldl
    (fun acc p =>
      dupdate p.1 (p.2.foldl (fun r q => rupdate q.1 q.2 r) (default_info fields p.1)) acc)
    []

/-- Modelled from the spec: the change-descriptor (`UpdateInfo`, defined in
`_update_info.py`, outside the embedded file) — "a small record describing
which entities and which field were affected by a mutation": a
human-readable description (the field name) and the changed entity ids. -/
structure UpdateInfo where
  description : String
  metadata_changed : List Nat
deriving DecidableEq, Repr

/-- One recorded `set` operation on the undo stack:
`(clusters, field, values, update_info)`. -/
structure HEntry (α : Type) where
  clusters : List Nat
  field : String
  values : BaseClusterInfo.Values α
  info : UpdateInfo

/-- A history slot: `none` is the sentinel null first entry ("nothing done
yet"), `some` holds a recorded operation. -/
abbrev Entry (α : Type) := Option (HEntry α)

/-- Modelled from the spec: the `History` class (defined in `_history.py`,
outside the embedded file).  An ordered list of items with a movable
cursor; the cursor divides the list into "done" (up to and including the
cursor) and "undone" (beyond it, retained for redo). -/
structure History (τ : Type) where
  items : List τ
  index : Nat

namespace History

/-- Modelled from the spec: construction — the list contains exactly the
given first item (the sentinel) and the cursor is at position 0. -/
def init {τ : Type} (first : τ) : History τ := ⟨[first], 0⟩

/-- Modelled from the spec: `add` truncates every undone item beyond the
cursor, appends the new item, and advances the cursor onto it. -/
def add {τ : Type} (h : History τ) (item : τ) : History τ :=
  ⟨h.items.take (h.index + 1) ++ [item], h.index + 1⟩

/-- Modelled from the spec: `back` — at the earliest position return
nothing and change nothing; otherwise return the item the cursor moves
past and move the cursor back by one. -/
def back {τ : Type} (h : History τ) : Option τ × History τ :=
  if h.index = 0 then (none, h)
  else (h.items[h.index]?, ⟨h.items, h.index - 1⟩)

/-- Modelled from the spec: `forward` — at the end of history return
nothing and change nothing; otherwise advance the cursor by one and return
the item it lands on. -/
def forward {τ : Type} (h : History τ) : Option τ × History τ :=
  if h.index + 1 < h.items.length then (h.items[h.index + 1]?, ⟨h.items, h.index + 1⟩)
  else (none, h)

/-- Modelled from the spec: iterating the history yields the done items —
positions 0 through the cursor inclusive. -/
def done {τ : Type} (h : History τ) : List τ := h.items.take (h.index + 1)

end History

open BaseClusterInfo (Values StoreError)

/-- `ClusterMetadata`: a `BaseClusterInfo` plus a frozen deep copy of the
construction-time data (`_data_base`, the baseline snapshot) and the undo
stack, initialized with the sentinel `(None, None, None, None)` entry. -/
structure ClusterMetadata (α : Type) where
  base : BaseClusterInfo α
  data_base : Data α
  undo_stack : History (Entry α)

namespace ClusterMetadata

/-- `ClusterMetadata.__init__(data, fields)`. -/
def init {α : Type} (fields : List (String × Dflt α)) (data : List (Nat × Record α)) :
    ClusterMetadata α :=
  let d := cluster_info fields data
  { base := ⟨fields, d⟩, data_base := d, undo_stack := History.init none }

/-- `ClusterMetadata.set(..., add_to_stack=False)`: the plain, non-recording
assignment path used by undo replay and redo — performs the underlying
store assignment and builds the change-descriptor, without touching the
undo stack. -/
def set_ {α : Type} (m : ClusterMetadata α) (clusters : List Nat) (f : String)
    (values : Values α) : Except StoreError (UpdateInfo × ClusterMetadata α) :=
  match m.base.set clusters f values with
  | .error e => .error e
  | .ok b => .ok (⟨f, clusters⟩, { m with base := b })

/-- `ClusterMetadata.set(clusters, field, values)`: perform the assignment,
then append `(clusters, field, values, info)` to the undo stack (truncating
any undone entries) and return the change-descriptor. -/
def set {α : Type} (m : ClusterMetadata α) (clusters : List Nat) (f : String)
    (values : Values α) : Except StoreError (UpdateInfo × ClusterMetadata α) :=
  match m.base.set clusters f values with
  | .error e => .error e
  | .ok b =>
    let info : UpdateInfo := ⟨f, clusters⟩
    .ok (info,
      { m with
        base := b
        undo_stack := m.undo_stack.add (some ⟨clusters, f, values, info⟩) })

/-- `ClusterMetadata.unset` is inherited from `BaseClusterInfo`: deletion is
not recorded on the undo stack. -/
def unset {α : Type} (m : ClusterMetadata α) (clusters : List Nat) :
    ClusterMetadata α :=
  { m with base := m.base.unset clusters }

/-- `self[cluster]` on the metadata store (inherited `__getitem__`): returns
the record, the updated store, and the instrumented list of invoked default
factories. -/
def getitem {α : Type} (m : ClusterMetadata α) (c : Nat) :
    Record α × ClusterMetadata α × List String :=
  match m.base.getitem c with
  | (r, b, inv) => (r, { m with base := b }, inv)

/-- The replay loop of `undo`: `for clusters, field, values, _ in
self._undo_stack: if clusters is not None: self.set(..., add_to_stack=False)`.
Skips the sentinel, applies each recorded operation through the
non-recording set path. -/
def replayEntries {α : Type} (m : ClusterMetadata α) :
    List (Entry α) → Except StoreError (ClusterMetadata α)
  | [] => .ok m
  | none :: es => replayEntries m es
  | some e :: es =>
    match m.set_ e.clusters e.field e.values with
    | .error err => .error err
    | .ok (_, m') => replayEntries m' es

/-- `ClusterMetadata.undo()`: move the cursor back (returning nothing at the
boundary), reset the data to a copy of the baseline snapshot, replay every
done entry in order, and return the change-descriptor of the entry that was
just undone. -/
def undo {α : Type} (m : ClusterMetadata α) :
    Except StoreError (Option UpdateInfo × ClusterMetadata α) :=
  match m.undo_stack.back with
  | (none, _) => .ok (none, m)
  | (some e, st) =>
    let m1 : ClusterMetadata α :=
      { m with base := { m.base with data := m.data_base }, undo_stack := st }
    match replayEntries m1 st.done with
    | .error err => .error err
    | .ok m2 => .ok (e.map HEntry.info, m2)

/-- `ClusterMetadata.redo()`: advance the cursor (returning nothing at the
end of history), apply the entry the cursor lands on via the non-recording
set path, and return that entry's stored change-descriptor.  The cursor can
only land on positions ≥ 1, so it never lands on the sentinel; the
`some none` branch is unreachable and modelled as a no-op result. -/
def redo {α : Type} (m : ClusterMetadata α) :
    Except StoreError (Option UpdateInfo × ClusterMetadata α) :=
  match m.undo_stack.forward with
  | (none, _) => .ok (none, m)
  | (some none, st) => .ok (none, { m with undo_stack := st })
  | (some (some e), st) =>
    match ClusterMetadata.set_ { m with undo_stack := st } e.clusters e.field e.values with
    | .error err => .error err
    | .ok (_, m') => .ok (some e.info, m')

/-- Reset the visible data to the baseline snapshot and replay the done
portion of the history — the reconstruction step that `undo` performs, used
to state the replay invariant. -/
def replayFromBaseline {α : Type} (m : ClusterMetadata α) :
    Except StoreError (ClusterMetadata α) :=
  replayEntries { m with base := { m.base with data := m.data_base } }
    m.undo_stack.done

end ClusterMetadata

/-- One call a client can make on a `ClusterMetadata` store. -/
inductive MOp (α : Type) where
  | mset : List Nat → String → Values α → MOp α
  | munset : List Nat → MOp α
  | mget : Nat → MOp α
  | mundo : MOp α
  | mredo : MOp α

/-- Run one operation, keeping the resulting store state.  A `set` that
fails its length check raises before mutating, leaving the state unchanged;
`undo`/`redo` results are kept likewise. -/
def stepOp {α : Type} (m : ClusterMetadata α) : MOp α → ClusterMetadata α
  | .mset cs f vs =>
    match m.set cs f vs with
    | .ok p => p.2
    | .error _ => m
  | .munset cs => m.unset cs
  | .mget c => (m.getitem c).2.1
  | .mundo =>
    match m.undo with
    | .ok p => p.2
    | .error _ => m
  | .mredo =>
    match m.redo with
    | .ok p => p.2
    | .error _ => m

/-- Run a sequence of operations from a state. -/
def runOps {α : Type} (m : ClusterMetadata α) (ops : List (MOp α)) :
    ClusterMetadata α :=
  ops.foldl stepOp m

/-- A `(clusters, values)` pair satisfies the length contract of `set`:
a sequence of values must have exactly one value per target id. -/
def validPair {α : Type} (clusters : List Nat) (values : Values α) : Bool :=
  match values with
  | .seq vs => clusters.length = vs.length
  | .scalar _ => true

/-- A recorded history entry satisfies the length contract. -/
def validEntry {α : Type} (e : HEntry α) : Bool :=
  validPair e.clusters e.values

/-- `ClusterStats`: a `BaseClusterInfo` whose field descriptors are the
named computation functions (each a one-argument function of the entity
id), plus the state the `__init__` loop leaves behind.  Each dynamically
attached accessor is `lambda cluster: self[cluster][name]` where `name` is
the loop variable, captured by reference: after the loop every accessor
reads the field named by the *last* key iterated (`lastName`). -/
structure ClusterStats (α : Type) where
  base : BaseClusterInfo α
  lastName : Option String

namespace ClusterStats

/-- `ClusterStats.__init__(**functions)`: attach one accessor per stat name
(all closing over the same loop variable, left at the last name), then
initialize the underlying store with the functions as field descriptors
(each is a one-argument callable, hence a per-entity default factory). -/
def init {α : Type} (functions : List (String × (Nat → α))) : ClusterStats α :=
  { base :=
      ⟨functions.map (fun p => (p.1, Dflt.perEntity p.2)), cluster_info
        (functions.map (fun p => (p.1, Dflt.perEntity p.2))) []⟩
    lastName := (functions.map (fun p => p.1)).getLast? }

/-- Attribute-style access `stats.name(cluster)`: defined only for names the
`__init__` loop attached (otherwise `none`, an attribute error).  The bound
closure evaluates `self[cluster][name]` with `name` the shared loop
variable, i.e. it materializes/fetches the cluster's record and reads the
field named by `lastName`.  Also returns the updated store and the
instrumented list of computation functions invoked. -/
def statAccess {α : Type} (s : ClusterStats α) (statName : String) (c : Nat) :
    Option α × ClusterStats α × List String :=
  if (s.base.fields.map (fun p => p.1)).contains statName then
    match s.base.getitem c with
    | (r, b, inv) =>
      (match s.lastName with
       | some n => rlookup n r
       | none => none,
       { s with base := b }, inv)
  else (none, s, [])

/-- `ClusterStats.invalidate(clusters)`: evict the whole cached record of
each given cluster (`self.unset(clusters)`). -/
def invalidate {α : Type} (s : ClusterStats α) (clusters : List Nat) :
    ClusterStats α :=
  { s with base := s.base.unset clusters }

end ClusterStats

/-! ### Basic association-list lemmas -/

theorem alookup_dupdate_self {α : Type} (c : Nat) (r : Record α) (d : Data α) :
    alookup c (dupdate c r d) = some r := by
  induction d with
  | nil => simp [dupdate, alookup]
  | cons hd t ih =>
    by_cases h : c = hd.1
    · simp [dupdate, alookup, h]
    · simp [dupdate, alookup, h, ih]

theorem alookup_dupdate_ne {α : Type} {c c' : Nat} (h : c ≠ c') (r : Record α)
    (d : Data α) : alookup c (dupdate c' r d) = alookup c d := by
  induction d with
  | nil => simp [dupdate, alookup, h]
  | cons hd t ih =>
    by_cases h' : c' = hd.1
    · subst h'
      simp [dupdate, alookup, h]
    · by_cases h'' : c = hd.1
      · simp [dupdate, alookup, h', h'']
      · simp [dupdate, alookup, h', h'', ih]

theorem rupdate_rupdate_same {α : Type} (f : String) (v w : α) (r : Record α) :
    rupdate f w (rupdate f v r) = rupdate f w r := by
  induction r with
  | nil => simp [rupdate]
  | cons hd t ih =>
    by_cases h : f = hd.1
    · simp [rupdate, h]
    · simp [rupdate, h, ih]

theorem rlookup_rupdate_self {α : Type} (f : String) (v : α) (r : Record α) :
    rlookup f (rupdate f v r) = some v := by
  induction r with
  | nil => simp [rupdate, rlookup]
  | cons hd t ih =>
    by_cases h : f = hd.1
    · simp [rupdate, rlookup, h]
    · simp [rupdate, rlookup, h, ih]

theorem rlookup_rupdate_ne {α : Type} {f g : String} (h : g ≠ f) (v : α)
    (r : Record α) : rlookup g (rupdate f v r) = rlookup g r := by
  induction r with
  | nil => simp [rupdate, rlookup, h]
  | cons hd t ih =>
    by_cases h' : f = hd.1
    · subst h'
      simp [rupdate, rlookup, h]
    · by_cases h'' : g = hd.1
      · simp [rupdate, rlookup, h', h'']
      · simp [rupdate, rlookup, h', h'', ih]

theorem rlookup_default_info {α : Type} {fields : List (String × Dflt α)}
    (hnd : (fields.map Prod.fst).Nodup) {f : String} {d : Dflt α}
    (hmem : (f, d) ∈ fields) (c : Nat) :
    rlookup f (default_info fields c) = some (default_value d c) := by
  induction fields with
  | nil => cases hmem
  | cons hd t ih =>
    rcases List.mem_cons.mp hmem with h | h
    · subst h
      simp [default_info, rlookup]
    · have hne : f ≠ hd.1 := by
        intro hEq
        have : f ∈ t.map Prod.fst := List.mem_map.mpr ⟨(f, d), h, rfl⟩
        rw [List.map_cons] at hnd
        exact (List.nodup_cons.mp hnd).1 (hEq ▸ this)
      have hnd' : (t.map Prod.fst).Nodup := by
        rw [List.map_cons] at hnd
        exact (List.nodup_cons.mp hnd).2
      simp [default_info, rlookup, hne]
      simpa [default_info] using ih hnd' h

/-! ### Concrete fixture used by closed theorems -/

/-- The default-fields example of the source (`group` defaulting to the
constant `3`, `color` to a zero-argument generator), with `Nat` values. -/
def exFields : List (String × Dflt Nat) :=
  [("group", Dflt.constant 3), ("color", Dflt.genZero (fun _ => 7))]

/-! ### C3: arity mismatch is rejected before any mutation -/

/-- C3: a `set` whose per-entity value sequence has a length different from
the number of target ids fails with `ArityMismatch` and mutates nothing —
the resulting visible state (data, baseline snapshot and undo history
alike) is exactly the state before the call. -/
theorem C3_set_arity_mismatch_is_atomic {α : Type} (m : ClusterMetadata α)
    (clusters : List Nat) (f : String) (vs : List α)
    (h : clusters.length ≠ vs.length) :
    m.set clusters f (Values.seq vs) = .error StoreError.arityMismatch ∧
    stepOp m (MOp.mset clusters f (Values.seq vs)) = m := by
  have hset : m.set clusters f (Values.seq vs) = .error StoreError.arityMismatch := by
    simp [ClusterMetadata.set, BaseClusterInfo.set, h]
  exact ⟨hset, by simp [stepOp, hset]⟩

/-- Witness for C3 at a concrete input: two target ids, one value. -/
theorem C3_witness :
    ([1, 2] : List Nat).length ≠ ([9] : List Nat).length ∧
    ((ClusterMetadata.init exFields []).set [1, 2] "group" (Values.seq [9])
        = .error StoreError.arityMismatch ∧
      stepOp (ClusterMetadata.init exFields []) (MOp.mset [1, 2] "group" (Values.seq [9]))
        = ClusterMetadata.init exFields []) :=
  ⟨by decide,
   C3_set_arity_mismatch_is_atomic (ClusterMetadata.init exFields []) [1, 2] "group" [9]
     (by decide)⟩

/-! ### C4: per-stat accessors and the late-binding slip -/

/-- A stats cache with two computation functions: `a` computes the id
itself, `b` computes the id plus one. -/
def bugStats : ClusterStats Nat :=
  ClusterStats.init [("a", fun n => n), ("b", fun n => n + 1)]

/-- C4 (code bug): with two computation functions, attribute-style access
under the name `a` for entity `0` returns `1` — the value of `b`'s
computation function — rather than `0`, the value of `a`'s own function.
Every accessor closes over the same loop variable of the `__init__` loop,
so after the loop each one reads the field named by the last key iterated. -/
theorem C4_accessor_reads_last_stat :
    (bugStats.statAccess "a" 0).1 = some 1 ∧
    (bugStats.statAccess "a" 0).1 ≠ some 0 := by
  constructor
  · rfl
  · decide

/-! ### C6: fresh entities get full default records, computed once -/

/-- C6: for an entity id never previously referenced, `get` returns a record
containing every declared field, each equal to that field's declared
default evaluated with correct arity (the dispatch of `default_value`);
each default factory is invoked exactly once during the call; and a second
read returns the cached record without invoking any factory and without
changing the store. -/
theorem C6_fresh_get_defaults_once {α : Type} (s : BaseClusterInfo α) (c : Nat)
    (habs : alookup c s.data = none) (hnd : (s.fields.map Prod.fst).Nodup) :
    (s.getitem c).1 = default_info s.fields c ∧
    (∀ f d, (f, d) ∈ s.fields →
      rlookup f (s.getitem c).1 = some (default_value d c)) ∧
    (s.getitem c).2.2 = s.fields.map Prod.fst ∧
    (∀ f ∈ (s.getitem c).2.2, ((s.getitem c).2.2).count f = 1) ∧
    ((s.getitem c).2.1).getitem c = ((s.getitem c).1, (s.getitem c).2.1, []) := by
  have hmiss : s.getitem c
      = (default_info s.fields c,
         { s with data := dupdate c (default_info s.fields c) s.data },
         s.fields.map (fun p => p.1)) := by
    simp [BaseClusterInfo.getitem, habs]
  refine ⟨by rw [hmiss], ?_, by rw [hmiss], ?_, ?_⟩
  · intro f d hmem
    rw [hmiss]
    exact rlookup_default_info hnd hmem c
  · intro f hf
    rw [hmiss] at hf ⊢
    exact List.count_eq_one_of_mem hnd hf
  · rw [hmiss]
    simp [BaseClusterInfo.getitem, alookup_dupdate_self]

/-- Witness for C6: a store with a constant, a zero-argument and a
one-argument default, and the never-referenced entity id `5`. -/
theorem C6_witness :
    (alookup 5 (BaseClusterInfo.mk
        [("group", Dflt.constant 3), ("color", Dflt.genZero (fun _ => 7)),
         ("depth", Dflt.perEntity (fun c => c))] ([] : Data Nat)).data = none ∧
      ((BaseClusterInfo.mk
        [("group", Dflt.constant 3), ("color", Dflt.genZero (fun _ => 7)),
         ("depth", Dflt.perEntity (fun c => c))] ([] : Data Nat)).fields.map
          Prod.fst).Nodup) ∧
    (((BaseClusterInfo.mk
        [("group", Dflt.constant 3), ("color", Dflt.genZero (fun _ => 7)),
         ("depth", Dflt.perEntity (fun c => c))] ([] : Data Nat)).getitem 5).2.2
      = ["group", "color", "depth"]) :=
  ⟨⟨by decide, by decide⟩,
   ((C6_fresh_get_defaults_once
      (BaseClusterInfo.mk
        [("group", Dflt.constant 3), ("color", Dflt.genZero (fun _ => 7)),
         ("depth", Dflt.perEntity (fun c => c))] ([] : Data Nat)) 5
      (by decide) (by decide)).2.2.1.trans (by decide))⟩

/-! ### Replay machinery: applying recorded history entries -/

/-- The store effect of one recorded history entry (the assignment its
`set` performed). -/
def applyEntry {α : Type} (s : BaseClusterInfo α) (e : HEntry α) : BaseClusterInfo α :=
  s.assign e.clusters e.field e.values

/-- The store effect of a list of recorded entries, applied in order. -/
def applyEntries {α : Type} (s : BaseClusterInfo α) (es : List (HEntry α)) :
    BaseClusterInfo α :=
  es.foldl applyEntry s

theorem fields_setOne {α : Type} (s : BaseClusterInfo α) (c : Nat) (f : String)
    (v : α) : (s.setOne c f v).fields = s.fields := by
  unfold BaseClusterInfo.setOne
  cases alookup c s.data <;> rfl

theorem fields_foldl_setOne {α β : Type} (g : BaseClusterInfo α → β → BaseClusterInfo α)
    (hg : ∀ s b, (g s b).fields = s.fields) (s : BaseClusterInfo α) (l : List β) :
    (l.foldl g s).fields = s.fields := by
  induction l generalizing s with
  | nil => rfl
  | cons hd t ih => rw [List.foldl_cons, ih, hg]

theorem fields_assign {α : Type} (s : BaseClusterInfo α) (cs : List Nat) (f : String)
    (vs : Values α) : (s.assign cs f vs).fields = s.fields := by
  cases vs with
  | seq l => exact fields_foldl_setOne _ (fun s p => fields_setOne s p.1 f p.2) s (cs.zip l)
  | scalar v => exact fields_foldl_setOne _ (fun s c => fields_setOne s c f v) s cs

theorem fields_applyEntries {α : Type} (s : BaseClusterInfo α) (es : List (HEntry α)) :
    (applyEntries s es).fields = s.fields := by
  induction es generalizing s with
  | nil => rfl
  | cons hd t ih => rw [applyEntries, List.foldl_cons, ← applyEntries, ih, applyEntry,
      fields_assign]

theorem set_valid {α : Type} (s : BaseClusterInfo α) (cs : List Nat) (f : String)
    (vs : Values α) (hv : validPair cs vs = true) :
    s.set cs f vs = .ok (s.assign cs f vs) := by
  cases vs with
  | seq l =>
    have : cs.length = l.length := by simpa [validPair] using hv
    simp [BaseClusterInfo.set, this]
  | scalar v => rfl

theorem setNR_valid {α : Type} (m : ClusterMetadata α) (cs : List Nat) (f : String)
    (vs : Values α) (hv : validPair cs vs = true) :
    m.set_ cs f vs = .ok (⟨f, cs⟩, { m with base := m.base.assign cs f vs }) := by
  unfold ClusterMetadata.set_
  rw [set_valid m.base cs f vs hv]

theorem setRec_valid {α : Type} (m : ClusterMetadata α) (cs : List Nat) (f : String)
    (vs : Values α) (hv : validPair cs vs = true) :
    m.set cs f vs
      = .ok (⟨f, cs⟩,
          { m with
            base := m.base.assign cs f vs
            undo_stack := m.undo_stack.add (some ⟨cs, f, vs, ⟨f, cs⟩⟩) }) := by
  unfold ClusterMetadata.set
  rw [set_valid m.base cs f vs hv]

theorem replayEntries_map_some {α : Type} (l : List (HEntry α))
    (hv : ∀ e ∈ l, validEntry e = true) (m : ClusterMetadata α) :
    ClusterMetadata.replayEntries m (l.map some)
      = .ok { m with base := applyEntries m.base l } := by
  induction l generalizing m with
  | nil => rfl
  | cons e t ih =>
    have he : validEntry e = true := hv e (List.mem_cons_self e t)
    have ht : ∀ x ∈ t, validEntry x = true := fun x hx => hv x (List.mem_cons_of_mem e hx)
    show ClusterMetadata.replayEntries m (some e :: t.map some) = _
    rw [ClusterMetadata.replayEntries, setNR_valid m e.clusters e.field e.values he]
    exact ih ht _

/-! ### General computation lemmas for undo and redo -/
theorem undo_zero_eq {α : Type} (m : ClusterMetadata α)
    (hidx : m.undo_stack.index = 0) : m.undo = .ok (none, m) := by
  unfold ClusterMetadata.undo History.back
  rw [hidx]
  simp

theorem redo_end_eq {α : Type} (m : ClusterMetadata α)
    (hend : ¬ m.undo_stack.index + 1 < m.undo_stack.items.length) :
    m.redo = .ok (none, m) := by
  unfold ClusterMetadata.redo History.forward
  simp [hend]

theorem ext' {α : Type} {s t : BaseClusterInfo α} (hf : s.fields = t.fields)
    (hd : s.data = t.data) : s = t := by
  cases s; cases t
  simp_all

theorem replayEntries_cons_none {α : Type} (m : ClusterMetadata α)
    (l : List (Entry α)) :
    ClusterMetadata.replayEntries m (none :: l) = ClusterMetadata.replayEntries m l := rfl

theorem undo_succ_eq {α : Type} (m : ClusterMetadata α) (es : List (HEntry α)) (k : Nat)
    (hitems : m.undo_stack.items = none :: es.map some)
    (hidx : m.undo_stack.index = k + 1) (hk : k < es.length)
    (hval : ∀ e ∈ es, validEntry e = true) :
    m.undo = .ok (some (es.get ⟨k, hk⟩).info,
      { m with
        base := applyEntries ⟨m.base.fields, m.data_base⟩ (es.take k)
        undo_stack := ⟨m.undo_stack.items, k⟩ }) := by
  have hback : m.undo_stack.back
      = (some (some (es.get ⟨k, hk⟩)), ⟨m.undo_stack.items, k⟩) := by
    unfold History.back
    rw [hidx, hitems]
    simp [List.getElem?_map, List.getElem?_eq_getElem hk]
  have hdone : (⟨m.undo_stack.items, k⟩ : History (Entry α)).done
      = none :: (es.take k).map some := by
    unfold History.done
    rw [hitems]
    simp [List.take_succ_cons, List.map_take]
  have hvt : ∀ e ∈ es.take k, validEntry e = true :=
    fun e he => hval e (List.mem_of_mem_take he)
  unfold ClusterMetadata.undo
  rw [hback]
  dsimp only
  rw [hdone, replayEntries_cons_none, replayEntries_map_some _ hvt]
  rfl



theorem redo_step_eq {α : Type} (m : ClusterMetadata α) (es : List (HEntry α)) (k : Nat)
    (hitems : m.undo_stack.items = none :: es.map some)
    (hidx : m.undo_stack.index = k) (hk : k < es.length)
    (hval : validEntry (es.get ⟨k, hk⟩) = true) :
    m.redo = .ok (some (es.get ⟨k, hk⟩).info,
      { m with
        base := m.base.assign (es.get ⟨k, hk⟩).clusters (es.get ⟨k, hk⟩).field
          (es.get ⟨k, hk⟩).values
        undo_stack := ⟨m.undo_stack.items, k + 1⟩ }) := by
  have hlen : m.undo_stack.index + 1 < m.undo_stack.items.length := by
    rw [hitems, hidx]
    simp [Nat.succ_lt_succ_iff, hk]
  have hforward : m.undo_stack.forward
      = (some (some (es.get ⟨k, hk⟩)), ⟨m.undo_stack.items, k + 1⟩) := by
    unfold History.forward
    rw [if_pos hlen, hidx, hitems]
    simp [List.getElem?_map, List.getElem?_eq_getElem hk]
  unfold ClusterMetadata.redo
  rw [hforward]
  dsimp only
  rw [setNR_valid _ _ _ _ hval]

/-! ### Stats-cache lemmas and claims C7, C10 -/

theorem statsInit_names {α : Type} (fs : List (String × (Nat → α))) :
    (ClusterStats.init fs).base.fields.map (fun p => p.1) = fs.map Prod.fst := by
  simp [ClusterStats.init]

theorem statsInit_data {α : Type} (fs : List (String × (Nat → α))) :
    (ClusterStats.init fs).base.data = [] := rfl

theorem statAccess_miss_snd {α : Type} (s : ClusterStats α) (name : String) (c : Nat)
    (hc : name ∈ s.base.fields.map (fun p => p.1))
    (habs : alookup c s.base.data = none) :
    (s.statAccess name c).2
      = ({ s with base :=
            { s.base with data := dupdate c (default_info s.base.fields c) s.base.data } },
         s.base.fields.map (fun p => p.1)) := by
  simp [ClusterStats.statAccess, hc, BaseClusterInfo.getitem, habs]

theorem statAccess_hit_snd {α : Type} (s : ClusterStats α) (name : String) (c : Nat)
    (hc : name ∈ s.base.fields.map (fun p => p.1)) (r : Record α)
    (hr : alookup c s.base.data = some r) :
    (s.statAccess name c).2 = (s, []) := by
  simp [ClusterStats.statAccess, hc, BaseClusterInfo.getitem, hr]

/-- C7: for a stats cache over computation functions `fs`, a stat `name`
and an entity `c`: the first access invokes `name`'s function exactly once,
the second access (no intervening invalidate) invokes nothing, and after
`invalidate([c])` the whole record is evicted, so the next access of any
stat invokes that stat's computation function again. -/
theorem C7_stat_cached_until_invalidate {α : Type}
    (fs : List (String × (Nat → α))) (name : String) (c : Nat)
    (hmem : name ∈ fs.map Prod.fst) (hnd : (fs.map Prod.fst).Nodup) :
    (((ClusterStats.init fs).statAccess name c).2.2).count name = 1 ∧
    ((((ClusterStats.init fs).statAccess name c).2.1).statAccess name c).2.2 = [] ∧
    (∀ name' ∈ fs.map Prod.fst,
      name' ∈
        (((((ClusterStats.init fs).statAccess name c).2.1).invalidate [c]).statAccess
            name' c).2.2) := by
  have hmem0 : name ∈ (ClusterStats.init fs).base.fields.map (fun p => p.1) := by
    rw [statsInit_names]; exact hmem
  have habs : alookup c (ClusterStats.init fs).base.data = none := by
    rw [statsInit_data]; rfl
  have h1 := statAccess_miss_snd (ClusterStats.init fs) name c hmem0 habs
  have hs1 : (((ClusterStats.init fs).statAccess name c).2.1)
      = { ClusterStats.init fs with base :=
            { (ClusterStats.init fs).base with
                data := dupdate c (default_info (ClusterStats.init fs).base.fields c)
                  (ClusterStats.init fs).base.data } } := congrArg Prod.fst h1
  have hi1 : (((ClusterStats.init fs).statAccess name c).2.2)
      = (ClusterStats.init fs).base.fields.map (fun p => p.1) := congrArg Prod.snd h1
  refine ⟨?_, ?_, ?_⟩
  · rw [hi1, statsInit_names]
    exact List.count_eq_one_of_mem hnd hmem
  · have hr : alookup c (((ClusterStats.init fs).statAccess name c).2.1).base.data
        = some (default_info (ClusterStats.init fs).base.fields c) := by
      rw [hs1]
      exact alookup_dupdate_self c _ _
    have hmem1 : name ∈ (((ClusterStats.init fs).statAccess name c).2.1).base.fields.map
        (fun p => p.1) := by rw [hs1]; exact hmem0
    exact congrArg Prod.snd (statAccess_hit_snd _ name c hmem1 _ hr)
  · intro name' hname'
    have hfields2 :
        ((((ClusterStats.init fs).statAccess name c).2.1).invalidate [c]).base.fields
          = (ClusterStats.init fs).base.fields := by
      rw [hs1]; rfl
    have habs2 : alookup c
        ((((ClusterStats.init fs).statAccess name c).2.1).invalidate [c]).base.data
          = none := by
      rw [hs1]
      show alookup c (dremove c (dupdate c _ _)) = none
      rw [statsInit_data]
      simp [dupdate, dremove, alookup]
    have hmem2 : name' ∈
        ((((ClusterStats.init fs).statAccess name c).2.1).invalidate [c]).base.fields.map
          (fun p => p.1) := by
      rw [hfields2, statsInit_names]; exact hname'
    have h3 := statAccess_miss_snd _ name' c hmem2 habs2
    rw [congrArg Prod.snd h3, hfields2, statsInit_names]
    exact hname'

/-- The two-stat function list used by closed statistics theorems. -/
def exStatFuns : List (String × (Nat → Nat)) := [("a", fun n => n), ("b", fun n => n + 1)]

/-- Witness for C7: two stats `a`, `b`; stat `a` accessed for entity `0`. -/
theorem C7_witness :
    ("a" ∈ exStatFuns.map Prod.fst ∧ (exStatFuns.map Prod.fst).Nodup) ∧
    ((((ClusterStats.init exStatFuns).statAccess "a" 0).2.2).count "a" = 1 ∧
      ((((ClusterStats.init exStatFuns).statAccess "a" 0).2.1).statAccess "a" 0).2.2 = [] ∧
      (∀ name' ∈ exStatFuns.map Prod.fst,
        name' ∈
          (((((ClusterStats.init exStatFuns).statAccess "a" 0).2.1).invalidate
              [0]).statAccess name' 0).2.2)) :=
  ⟨⟨by decide, by decide⟩,
   C7_stat_cached_until_invalidate exStatFuns "a" 0 (by decide) (by decide)⟩

/-- C10: the first read of any single stat for an entity materializes the
entity's whole record — the invocation list is exactly the full list of
registered stat names, and every stat's computed value is cached at once —
so a subsequent first read of any other stat invokes no computation
function. -/
theorem C10_first_read_materializes_record {α : Type}
    (fs : List (String × (Nat → α))) (a b : String) (c : Nat)
    (ha : a ∈ fs.map Prod.fst) (hb : b ∈ fs.map Prod.fst)
    (hnd : (fs.map Prod.fst).Nodup) :
    (((ClusterStats.init fs).statAccess a c).2.2) = fs.map Prod.fst ∧
    (∀ nm fn, (nm, fn) ∈ fs →
      (alookup c (((ClusterStats.init fs).statAccess a c).2.1).base.data).bind
          (rlookup nm) = some (fn c)) ∧
    ((((ClusterStats.init fs).statAccess a c).2.1).statAccess b c).2.2 = [] := by
  have hmem0 : a ∈ (ClusterStats.init fs).base.fields.map (fun p => p.1) := by
    rw [statsInit_names]; exact ha
  have habs : alookup c (ClusterStats.init fs).base.data = none := by
    rw [statsInit_data]; rfl
  have h1 := statAccess_miss_snd (ClusterStats.init fs) a c hmem0 habs
  have hs1 : (((ClusterStats.init fs).statAccess a c).2.1)
      = { ClusterStats.init fs with base :=
            { (ClusterStats.init fs).base with
                data := dupdate c (default_info (ClusterStats.init fs).base.fields c)
                  (ClusterStats.init fs).base.data } } := congrArg Prod.fst h1
  refine ⟨?_, ?_, ?_⟩
  · rw [congrArg Prod.snd h1, statsInit_names]
  · intro nm fn hmemfs
    have hr : alookup c (((ClusterStats.init fs).statAccess a c).2.1).base.data
        = some (default_info (ClusterStats.init fs).base.fields c) := by
      rw [hs1]
      exact alookup_dupdate_self c _ _
    rw [hr]
    show rlookup nm (default_info (ClusterStats.init fs).base.fields c) = some (fn c)
    have hnd0 : ((ClusterStats.init fs).base.fields.map (fun p => p.1)).Nodup := by
      rw [statsInit_names]; exact hnd
    have hmemf : (nm, Dflt.perEntity fn) ∈ (ClusterStats.init fs).base.fields :=
      List.mem_map.mpr ⟨(nm, fn), hmemfs, rfl⟩
    have hndF : ((ClusterStats.init fs).base.fields.map Prod.fst).Nodup := by
      simpa using hnd0
    have := rlookup_default_info hndF hmemf c
    simpa [default_value] using this
  · have hr : alookup c (((ClusterStats.init fs).statAccess a c).2.1).base.data
        = some (default_info (ClusterStats.init fs).base.fields c) := by
      rw [hs1]
      exact alookup_dupdate_self c _ _
    have hmem1 : b ∈ (((ClusterStats.init fs).statAccess a c).2.1).base.fields.map
        (fun p => p.1) := by
      rw [hs1, statsInit_names]; exact hb
    exact congrArg Prod.snd (statAccess_hit_snd _ b c hmem1 _ hr)

/-- Witness for C10: reading stat `a` first, then stat `b`, for entity `0`. -/
theorem C10_witness :
    ("a" ∈ exStatFuns.map Prod.fst ∧ "b" ∈ exStatFuns.map Prod.fst ∧
      (exStatFuns.map Prod.fst).Nodup) ∧
    ((((ClusterStats.init exStatFuns).statAccess "a" 0).2.2) = exStatFuns.map Prod.fst ∧
      (∀ nm fn, (nm, fn) ∈ exStatFuns →
        (alookup 0 (((ClusterStats.init exStatFuns).statAccess "a" 0).2.1).base.data).bind
            (rlookup nm) = some (fn 0)) ∧
      ((((ClusterStats.init exStatFuns).statAccess "a" 0).2.1).statAccess "b" 0).2.2 = []) :=
  ⟨⟨by decide, by decide, by decide⟩,
   C10_first_read_materializes_record exStatFuns "a" "b" 0 (by decide) (by decide)
     (by decide)⟩

/-! ### C5: undo after two sets restores the first written value -/

/-- C5: after `set([5], 'group', 2)` then `set([5], 'group', 0)` on a fresh
store, one `undo` leaves entity 5's `group` field equal to `2` (not `0`,
not the declared default `3`), and the `undo` call returns the
change-descriptor of the entry just undone (description `group`, changed
ids `[5]`). -/
theorem C5_undo_after_two_sets :
    ((stepOp (stepOp (ClusterMetadata.init exFields [])
          (MOp.mset [5] "group" (Values.scalar 2)))
          (MOp.mset [5] "group" (Values.scalar 0))).undo).toOption.map
        (fun p => (p.1, p.2.base.data))
      = some (some ⟨"group", [5]⟩, [(5, [("group", 2), ("color", 7)])]) ∧
    (alookup 5 (stepOp (stepOp (stepOp (ClusterMetadata.init exFields [])
          (MOp.mset [5] "group" (Values.scalar 2)))
          (MOp.mset [5] "group" (Values.scalar 0))) MOp.mundo).base.data).bind
        (rlookup "group")
      = some 2 ∧
    (2 : Nat) ≠ 0 ∧ (2 : Nat) ≠ 3 := by
  refine ⟨rfl, rfl, by decide, by decide⟩

end Phy
namespace Phy
open BaseClusterInfo (Values StoreError)

/-- The replay invariant tying a metadata store's state to its recorded
history: the stack is the sentinel followed by the recorded entries `es`,
the cursor sits at `k ≤ |es|`, every entry obeys the length contract, the
baseline is `d0`, and the visible store equals the baseline store `⟨F, d0⟩`
with the first `k` entries replayed. -/
structure IdxInv {α : Type} (F : List (String × Dflt α)) (d0 : Data α)
    (m : ClusterMetadata α) (es : List (HEntry α)) (k : Nat) : Prop where
  items_eq : m.undo_stack.items = none :: es.map some
  index_eq : m.undo_stack.index = k
  k_le : k ≤ es.length
  valid : ∀ e ∈ es, validEntry e = true
  dbase_eq : m.data_base = d0
  base_eq : m.base = applyEntries ⟨F, d0⟩ (es.take k)

theorem IdxInv.fields_eq {α : Type} {F : List (String × Dflt α)} {d0 : Data α}
    {m : ClusterMetadata α} {es : List (HEntry α)} {k : Nat}
    (h : IdxInv F d0 m es k) : m.base.fields = F := by
  rw [h.base_eq, fields_applyEntries]

theorem IdxInv.of_init {α : Type} (F : List (String × Dflt α))
    (d : List (Nat × Record α)) :
    IdxInv F (cluster_info F d) (ClusterMetadata.init F d) [] 0 :=
  ⟨rfl, rfl, Nat.le_refl 0, (by intro e he; cases he), rfl, rfl⟩

theorem IdxInv.set_step {α : Type} {F : List (String × Dflt α)} {d0 : Data α}
    {m : ClusterMetadata α} {es : List (HEntry α)} {k : Nat}
    (h : IdxInv F d0 m es k) (cs : List Nat) (f : String) (vs : Values α)
    (hv : validPair cs vs = true) :
    m.set cs f vs = .ok (⟨f, cs⟩, stepOp m (MOp.mset cs f vs)) ∧
    IdxInv F d0 (stepOp m (MOp.mset cs f vs))
      (es.take k ++ [⟨cs, f, vs, ⟨f, cs⟩⟩]) (k + 1) := by
  have hset := setRec_valid m cs f vs hv
  have hstep : stepOp m (MOp.mset cs f vs)
      = { m with
          base := m.base.assign cs f vs
          undo_stack := m.undo_stack.add (some ⟨cs, f, vs, ⟨f, cs⟩⟩) } := by
    simp [stepOp, hset]
  refine ⟨by rw [hset, hstep], ?_⟩
  have htakelen : (es.take k).length = k := by
    rw [List.length_take]
    exact Nat.min_eq_left h.k_le
  constructor
  · rw [hstep]
    show (m.undo_stack.add (some ⟨cs, f, vs, ⟨f, cs⟩⟩)).items = _
    unfold History.add
    rw [h.items_eq, h.index_eq]
    simp [List.take_succ_cons, List.map_take]
  · rw [hstep]
    show m.undo_stack.index + 1 = k + 1
    rw [h.index_eq]
  · simp [htakelen]
  · intro e he
    rcases List.mem_append.mp he with h' | h'
    · exact h.valid e (List.mem_of_mem_take h')
    · rcases List.mem_singleton.mp h' with rfl
      exact hv
  · rw [hstep]
    exact h.dbase_eq
  · rw [hstep]
    show m.base.assign cs f vs = _
    rw [h.base_eq]
    have htk : (es.take k ++ [(⟨cs, f, vs, ⟨f, cs⟩⟩ : HEntry α)]).take (k + 1)
        = es.take k ++ [(⟨cs, f, vs, ⟨f, cs⟩⟩ : HEntry α)] :=
      List.take_of_length_le (by simp [htakelen])
    rw [htk]
    unfold applyEntries
    rw [List.foldl_append]
    rfl

end Phy

namespace Phy
open BaseClusterInfo (Values StoreError)

theorem CMext {α : Type} {m m' : ClusterMetadata α} (hb : m.base = m'.base)
    (hd : m.data_base = m'.data_base)
    (hi : m.undo_stack.items = m'.undo_stack.items)
    (hx : m.undo_stack.index = m'.undo_stack.index) : m = m' := by
  cases m with
  | mk b db st =>
    cases m' with
    | mk b' db' st' =>
      cases st
      cases st'
      simp_all

theorem IdxInv.state_eq {α : Type} {F : List (String × Dflt α)} {d0 : Data α}
    {m : ClusterMetadata α} {es : List (HEntry α)} {k : Nat}
    (h : IdxInv F d0 m es k) :
    m = ⟨applyEntries ⟨F, d0⟩ (es.take k), d0, ⟨none :: es.map some, k⟩⟩ :=
  CMext h.base_eq h.dbase_eq h.items_eq h.index_eq

theorem IdxInv.undo_zero {α : Type} {F : List (String × Dflt α)} {d0 : Data α}
    {m : ClusterMetadata α} {es : List (HEntry α)}
    (h : IdxInv F d0 m es 0) :
    m.undo = .ok (none, m) ∧ stepOp m MOp.mundo = m := by
  have hu := undo_zero_eq m h.index_eq
  exact ⟨hu, by simp [stepOp, hu]⟩

theorem IdxInv.undo_succ {α : Type} {F : List (String × Dflt α)} {d0 : Data α}
    {m : ClusterMetadata α} {es : List (HEntry α)} {k : Nat}
    (h : IdxInv F d0 m es (k + 1)) :
    ∃ hk : k < es.length,
      m.undo = .ok (some (es.get ⟨k, hk⟩).info, stepOp m MOp.mundo) ∧
      IdxInv F d0 (stepOp m MOp.mundo) es k := by
  have hk : k < es.length := Nat.lt_of_lt_of_le (Nat.lt_succ_self k) h.k_le
  have hu := undo_succ_eq m es k h.items_eq h.index_eq hk h.valid
  rw [h.fields_eq, h.dbase_eq] at hu
  have hstep : stepOp m MOp.mundo
      = ⟨applyEntries ⟨F, d0⟩ (es.take k), d0, ⟨m.undo_stack.items, k⟩⟩ := by
    simp [stepOp, hu]
  refine ⟨hk, by rw [hu, hstep], ?_⟩
  constructor
  · rw [hstep]
    exact h.items_eq
  · rw [hstep]
  · exact Nat.le_of_lt hk
  · exact h.valid
  · rw [hstep]
  · rw [hstep]

theorem IdxInv.redo_end {α : Type} {F : List (String × Dflt α)} {d0 : Data α}
    {m : ClusterMetadata α} {es : List (HEntry α)} {k : Nat}
    (h : IdxInv F d0 m es k) (hend : es.length ≤ k) :
    m.redo = .ok (none, m) ∧ stepOp m MOp.mredo = m := by
  have hnot : ¬ m.undo_stack.index + 1 < m.undo_stack.items.length := by
    rw [h.index_eq, h.items_eq]
    simp
    omega
  have hr := redo_end_eq m hnot
  exact ⟨hr, by simp [stepOp, hr]⟩

theorem IdxInv.redo_step {α : Type} {F : List (String × Dflt α)} {d0 : Data α}
    {m : ClusterMetadata α} {es : List (HEntry α)} {k : Nat}
    (h : IdxInv F d0 m es k) (hk : k < es.length) :
    m.redo = .ok (some (es.get ⟨k, hk⟩).info, stepOp m MOp.mredo) ∧
    IdxInv F d0 (stepOp m MOp.mredo) es (k + 1) := by
  have hval : validEntry (es.get ⟨k, hk⟩) = true :=
    h.valid _ (List.get_mem es k hk)
  have hr := redo_step_eq m es k h.items_eq h.index_eq hk hval
  have hstep : stepOp m MOp.mredo
      = { m with
          base := m.base.assign (es.get ⟨k, hk⟩).clusters (es.get ⟨k, hk⟩).field
            (es.get ⟨k, hk⟩).values
          undo_stack := ⟨m.undo_stack.items, k + 1⟩ } := by
    simp [stepOp, hr]
  refine ⟨by rw [hr, hstep], ?_⟩
  constructor
  · rw [hstep]
    exact h.items_eq
  · rw [hstep]
  · exact hk
  · exact h.valid
  · rw [hstep]
    exact h.dbase_eq
  · rw [hstep]
    show m.base.assign _ _ _ = _
    rw [h.base_eq]
    have hcat : es.take k ++ [es.get ⟨k, hk⟩] = es.take (k + 1) := by
      rw [List.get_eq_getElem, ← List.concat_eq_append]
      exact List.take_concat_get es k hk
    rw [← hcat]
    unfold applyEntries
    rw [List.foldl_append]
    rfl

end Phy

namespace Phy
open BaseClusterInfo (Values StoreError)

theorem IdxInv.sets_run {α : Type} {F : List (String × Dflt α)} {d0 : Data α}
    (ops : List (List Nat × String × Values α))
    (hv : ∀ p ∈ ops, validPair p.1 p.2.2 = true)
    {m : ClusterMetadata α} {es : List (HEntry α)}
    (h : IdxInv F d0 m es es.length) :
    ∃ es', IdxInv F d0 (runOps m (ops.map (fun p => MOp.mset p.1 p.2.1 p.2.2)))
        es' es'.length ∧ es'.length = es.length + ops.length := by
  induction ops generalizing m es with
  | nil => exact ⟨es, h, rfl⟩
  | cons op t ih =>
    have hvop : validPair op.1 op.2.2 = true := hv op (List.mem_cons_self op t)
    have hstep := (h.set_step op.1 op.2.1 op.2.2 hvop).2
    rw [List.take_length] at hstep
    have hlen : es.length + 1
        = (es ++ [(⟨op.1, op.2.1, op.2.2, ⟨op.2.1, op.1⟩⟩ : HEntry α)]).length := by
      simp
    rw [hlen] at hstep
    obtain ⟨es', h', hlen'⟩ := ih (fun p hp => hv p (List.mem_cons_of_mem op hp)) hstep
    refine ⟨es', h', ?_⟩
    rw [hlen']
    simp
    omega

theorem IdxInv.undos_run {α : Type} {F : List (String × Dflt α)} {d0 : Data α}
    (j : Nat) {m : ClusterMetadata α} {es : List (HEntry α)} {k : Nat}
    (h : IdxInv F d0 m es k) (hj : j ≤ k) :
    IdxInv F d0 (runOps m (List.replicate j MOp.mundo)) es (k - j) := by
  induction j generalizing m k with
  | zero => simpa [runOps] using h
  | succ j ih =>
    have hpos : 0 < k := Nat.lt_of_lt_of_le (Nat.succ_pos j) hj
    have hk1 : k - 1 + 1 = k := Nat.succ_pred_eq_of_pos hpos
    have h' : IdxInv F d0 m es (k - 1 + 1) := by rw [hk1]; exact h
    obtain ⟨hk, _, hinv⟩ := h'.undo_succ
    rw [List.replicate_succ]
    show IdxInv F d0 (runOps (stepOp m MOp.mundo) (List.replicate j MOp.mundo)) es (k - (j + 1))
    have hres := ih hinv (by omega)
    have : k - 1 - j = k - (j + 1) := by omega
    rw [this] at hres
    exact hres

theorem IdxInv.redos_run {α : Type} {F : List (String × Dflt α)} {d0 : Data α}
    (j : Nat) {m : ClusterMetadata α} {es : List (HEntry α)} {k : Nat}
    (h : IdxInv F d0 m es k) (hj : k + j ≤ es.length) :
    IdxInv F d0 (runOps m (List.replicate j MOp.mredo)) es (k + j) := by
  induction j generalizing m k with
  | zero => simpa [runOps] using h
  | succ j ih =>
    have hk : k < es.length := by omega
    obtain ⟨_, hinv⟩ := h.redo_step hk
    rw [List.replicate_succ]
    show IdxInv F d0 (runOps (stepOp m MOp.mredo) (List.replicate j MOp.mredo)) es (k + (j + 1))
    have hres := ih hinv (by omega)
    have : k + 1 + j = k + (j + 1) := by omega
    rw [this] at hres
    exact hres

end Phy

namespace Phy
open BaseClusterInfo (Values StoreError)

/-- C1: for every sequence of n valid (hence successful) `set` calls on a
freshly constructed metadata store, n `undo` calls leave the visible data
equal to the baseline snapshot (which itself still equals the
construction-time baseline), and n subsequent `redo` calls reproduce
exactly the state that held immediately after the last `set`. -/
theorem C1_undo_redo_roundtrip {α : Type} (F : List (String × Dflt α))
    (d : List (Nat × Record α)) (ops : List (List Nat × String × Values α))
    (hv : ∀ p ∈ ops, validPair p.1 p.2.2 = true) :
    (runOps (runOps (ClusterMetadata.init F d)
        (ops.map fun p => MOp.mset p.1 p.2.1 p.2.2))
        (List.replicate ops.length MOp.mundo)).base.data
      = (runOps (runOps (ClusterMetadata.init F d)
          (ops.map fun p => MOp.mset p.1 p.2.1 p.2.2))
          (List.replicate ops.length MOp.mundo)).data_base ∧
    (runOps (runOps (ClusterMetadata.init F d)
        (ops.map fun p => MOp.mset p.1 p.2.1 p.2.2))
        (List.replicate ops.length MOp.mundo)).data_base
      = (ClusterMetadata.init F d).data_base ∧
    runOps (runOps (runOps (ClusterMetadata.init F d)
        (ops.map fun p => MOp.mset p.1 p.2.1 p.2.2))
        (List.replicate ops.length MOp.mundo))
        (List.replicate ops.length MOp.mredo)
      = runOps (ClusterMetadata.init F d)
          (ops.map fun p => MOp.mset p.1 p.2.1 p.2.2) := by
  obtain ⟨es, h1, hlen⟩ := IdxInv.sets_run ops hv (IdxInv.of_init F d)
  have hlen' : es.length = ops.length := by simpa using hlen
  rw [← hlen']
  have hu := h1.undos_run es.length (Nat.le_refl _)
  rw [Nat.sub_self] at hu
  refine ⟨?_, ?_, ?_⟩
  · rw [hu.base_eq, hu.dbase_eq]
    rfl
  · rw [hu.dbase_eq]
    rfl
  · have hr := hu.redos_run es.length (by omega)
    rw [Nat.zero_add] at hr
    rw [hr.state_eq, h1.state_eq]

end Phy

namespace Phy
open BaseClusterInfo (Values StoreError)

theorem replay_dbase {α : Type} : ∀ (l : List (Entry α)) (m m' : ClusterMetadata α),
    ClusterMetadata.replayEntries m l = .ok m' → m'.data_base = m.data_base := by
  intro l
  induction l with
  | nil =>
    intro m m' h
    injection h with h
    rw [← h]
  | cons e t ih =>
    intro m m' h
    cases e with
    | none => exact ih m m' h
    | some e =>
      rw [show ClusterMetadata.replayEntries m (some e :: t)
            = (match m.set_ e.clusters e.field e.values with
               | .error err => .error err
               | .ok (_, m1) => ClusterMetadata.replayEntries m1 t) from rfl] at h
      unfold ClusterMetadata.set_ at h
      cases hbs : m.base.set e.clusters e.field e.values with
      | error err => rw [hbs] at h; cases h
      | ok b =>
        rw [hbs] at h
        dsimp only at h
        exact ih ⟨b, m.data_base, m.undo_stack⟩ m' h

theorem set_ok_dbase {α : Type} {m m' : ClusterMetadata α} {cs : List Nat}
    {f : String} {vs : Values α} {i : UpdateInfo}
    (h : m.set cs f vs = .ok (i, m')) : m'.data_base = m.data_base := by
  unfold ClusterMetadata.set at h
  cases hbs : m.base.set cs f vs with
  | error err => rw [hbs] at h; cases h
  | ok b =>
    rw [hbs] at h
    injection h with h
    rw [show m' = (i, m').2 from rfl, ← h]

theorem undo_ok_dbase {α : Type} {m m' : ClusterMetadata α} {r : Option UpdateInfo}
    (h : m.undo = .ok (r, m')) : m'.data_base = m.data_base := by
  unfold ClusterMetadata.undo at h
  cases hb : m.undo_stack.back with
  | mk e st =>
    rw [hb] at h
    cases e with
    | none =>
      injection h with h
      rw [show m' = (r, m').2 from rfl, ← h]
    | some e =>
      dsimp only at h
      cases hre : ClusterMetadata.replayEntries
          { m with base := { m.base with data := m.data_base }, undo_stack := st }
          st.done with
      | error err => rw [hre] at h; cases h
      | ok m2 =>
        rw [hre] at h
        injection h with h
        have hd := replay_dbase _ _ _ hre
        rw [show m' = (r, m').2 from rfl, ← h]
        exact hd

theorem redo_ok_dbase {α : Type} {m m' : ClusterMetadata α} {r : Option UpdateInfo}
    (h : m.redo = .ok (r, m')) : m'.data_base = m.data_base := by
  unfold ClusterMetadata.redo at h
  cases hb : m.undo_stack.forward with
  | mk e st =>
    rw [hb] at h
    cases e with
    | none =>
      injection h with h
      rw [show m' = (r, m').2 from rfl, ← h]
    | some e =>
      cases e with
      | none =>
        dsimp only at h
        injection h with h
        rw [show m' = (r, m').2 from rfl, ← h]
      | some e =>
        dsimp only at h
        unfold ClusterMetadata.set_ at h
        cases hbs : ({ m with undo_stack := st } : ClusterMetadata α).base.set
            e.clusters e.field e.values with
        | error err => rw [hbs] at h; cases h
        | ok b =>
          rw [hbs] at h
          injection h with h
          rw [show m' = (r, m').2 from rfl, ← h]

theorem dbase_stepOp {α : Type} (m : ClusterMetadata α) (op : MOp α) :
    (stepOp m op).data_base = m.data_base := by
  cases op with
  | mset cs f vs =>
    show (match m.set cs f vs with
      | .ok p => p.2
      | .error _ => m).data_base = m.data_base
    cases hs : m.set cs f vs with
    | error e => rfl
    | ok p => exact set_ok_dbase (i := p.1) (by rw [hs])
  | munset cs => rfl
  | mget c =>
    show ((m.getitem c).2.1).data_base = m.data_base
    unfold ClusterMetadata.getitem
    cases m.base.getitem c with
    | mk r q => rfl
  | mundo =>
    show (match m.undo with
      | .ok p => p.2
      | .error _ => m).data_base = m.data_base
    cases hs : m.undo with
    | error e => rfl
    | ok p => exact undo_ok_dbase (r := p.1) (by rw [hs])
  | mredo =>
    show (match m.redo with
      | .ok p => p.2
      | .error _ => m).data_base = m.data_base
    cases hs : m.redo with
    | error e => rfl
    | ok p => exact redo_ok_dbase (r := p.1) (by rw [hs])

theorem dbase_runOps {α : Type} (ops : List (MOp α)) (m : ClusterMetadata α) :
    (runOps m ops).data_base = m.data_base := by
  induction ops generalizing m with
  | nil => rfl
  | cons op t ih => rw [runOps, List.foldl_cons, ← runOps, ih, dbase_stepOp]

end Phy

namespace Phy
open BaseClusterInfo (Values StoreError)

theorem set_invalid {α : Type} (m : ClusterMetadata α) (cs : List Nat) (f : String)
    (vs : Values α) (hv : validPair cs vs = false) :
    m.set cs f vs = .error .arityMismatch := by
  cases vs with
  | scalar v => simp [validPair] at hv
  | seq l =>
    have : cs.length ≠ l.length := by simpa [validPair] using hv
    simp [ClusterMetadata.set, BaseClusterInfo.set, this]

theorem stepOp_mset_invalid {α : Type} (m : ClusterMetadata α) (cs : List Nat)
    (f : String) (vs : Values α) (hv : validPair cs vs = false) :
    stepOp m (MOp.mset cs f vs) = m := by
  have h := set_invalid m cs f vs hv
  simp [stepOp, h]

/-- An operation that is neither `unset` nor a record-materializing read. -/
def opPure {α : Type} : MOp α → Bool
  | .munset _ => false
  | .mget _ => false
  | _ => true

theorem IdxInv.pure_step {α : Type} {F : List (String × Dflt α)} {d0 : Data α}
    {m : ClusterMetadata α} {es : List (HEntry α)} {k : Nat}
    (h : IdxInv F d0 m es k) (op : MOp α) (hp : opPure op = true) :
    ∃ es' k', IdxInv F d0 (stepOp m op) es' k' := by
  cases op with
  | mset cs f vs =>
    cases hv : validPair cs vs with
    | true => exact ⟨_, _, (h.set_step cs f vs hv).2⟩
    | false =>
      rw [stepOp_mset_invalid m cs f vs hv]
      exact ⟨es, k, h⟩
  | munset cs => simp [opPure] at hp
  | mget c => simp [opPure] at hp
  | mundo =>
    cases k with
    | zero =>
      rw [h.undo_zero.2]
      exact ⟨es, 0, h⟩
    | succ k' =>
      obtain ⟨hk, _, hinv⟩ := h.undo_succ
      exact ⟨es, k', hinv⟩
  | mredo =>
    by_cases hk : k < es.length
    · exact ⟨es, k + 1, (h.redo_step hk).2⟩
    · rw [(h.redo_end (Nat.le_of_not_lt hk)).2]
      exact ⟨es, k, h⟩

theorem IdxInv.pure_run {α : Type} {F : List (String × Dflt α)} {d0 : Data α}
    (ops : List (MOp α)) (hp : ∀ op ∈ ops, opPure op = true)
    {m : ClusterMetadata α} {es : List (HEntry α)} {k : Nat}
    (h : IdxInv F d0 m es k) :
    ∃ es' k', IdxInv F d0 (runOps m ops) es' k' := by
  induction ops generalizing m es k with
  | nil => exact ⟨es, k, h⟩
  | cons op t ih =>
    obtain ⟨es1, k1, h1⟩ := h.pure_step op (hp op (List.mem_cons_self op t))
    exact ih (fun x hx => hp x (List.mem_cons_of_mem op hx)) h1

theorem replayFromBaseline_of_inv {α : Type} {F : List (String × Dflt α)} {d0 : Data α}
    {m : ClusterMetadata α} {es : List (HEntry α)} {k : Nat}
    (h : IdxInv F d0 m es k) :
    m.replayFromBaseline = .ok { m with base := applyEntries ⟨F, d0⟩ (es.take k) } := by
  unfold ClusterMetadata.replayFromBaseline
  have hdone : m.undo_stack.done = none :: (es.take k).map some := by
    unfold History.done
    rw [h.items_eq, h.index_eq]
    simp [List.take_succ_cons, List.map_take]
  rw [hdone, replayEntries_cons_none,
    replayEntries_map_some _ (fun e he => h.valid e (List.mem_of_mem_take he))]
  have hbase : ({ m.base with data := m.data_base } : BaseClusterInfo α) = ⟨F, d0⟩ :=
    ext' h.fields_eq h.dbase_eq
  rw [show ({ m with base := { m.base with data := m.data_base } } : ClusterMetadata α).base
        = ({ m.base with data := m.data_base } : BaseClusterInfo α) from rfl]
  rw [hbase]

end Phy

namespace Phy
open BaseClusterInfo (Values StoreError)

/-- C2 (amended): for every state reachable by an interleaving of `set`,
`undo` and `redo` (no `unset`, no default-materializing read), resetting to
the baseline snapshot and replaying the history entries before the cursor
reproduces the visible store data exactly; and for every state reachable by
any interleaving of the five operations, the baseline snapshot still equals
the construction-time baseline (it is never mutated). -/
theorem C2_replay_invariant {α : Type} (F : List (String × Dflt α))
    (d : List (Nat × Record α)) (ops : List (MOp α)) :
    (runOps (ClusterMetadata.init F d) ops).data_base
      = (ClusterMetadata.init F d).data_base ∧
    ((∀ op ∈ ops, opPure op = true) →
      ∃ m', (runOps (ClusterMetadata.init F d) ops).replayFromBaseline = .ok m' ∧
        m'.base.data = (runOps (ClusterMetadata.init F d) ops).base.data) := by
  refine ⟨dbase_runOps ops _, ?_⟩
  intro hp
  obtain ⟨es', k', h⟩ := IdxInv.pure_run ops hp (IdxInv.of_init F d)
  refine ⟨_, replayFromBaseline_of_inv h, ?_⟩
  show (applyEntries ⟨F, cluster_info F d⟩ (es'.take k')).data = _
  rw [h.base_eq]

/-- Counterexample to C2 as stated: `unset` and record-materializing `get`
are not recorded in the history, so after `set([5],'group',2); unset([5])`
replay from baseline yields a record for entity 5 while the store has none,
and after a bare `get(7)` the store holds 7's default record while replay
from baseline yields an empty store. -/
theorem C2_counterexample_unset_and_get :
    ((runOps (ClusterMetadata.init exFields [])
        [MOp.mset [5] "group" (Values.scalar 2), MOp.munset [5]]).replayFromBaseline).toOption.map
        (fun x => x.base.data)
      = some [(5, [("group", 2), ("color", 7)])] ∧
    (runOps (ClusterMetadata.init exFields [])
        [MOp.mset [5] "group" (Values.scalar 2), MOp.munset [5]]).base.data = [] ∧
    ((runOps (ClusterMetadata.init exFields []) [MOp.mget 7]).replayFromBaseline).toOption.map
        (fun x => x.base.data)
      = some [] ∧
    (runOps (ClusterMetadata.init exFields []) [MOp.mget 7]).base.data
      = [(7, [("group", 3), ("color", 7)])] ∧
    some [(5, [("group", 2), ("color", 7)])] ≠ (some [] : Option (Data Nat)) := by
  refine ⟨rfl, rfl, rfl, rfl, by decide⟩

end Phy

namespace Phy
open BaseClusterInfo (Values StoreError)

/-- The stack well-formedness every reachable store satisfies: the history
is the sentinel followed by recorded entries, the cursor is in range, and
every recorded entry obeys the length contract. -/
def StackOK {α : Type} (m : ClusterMetadata α) : Prop :=
  ∃ es : List (HEntry α),
    m.undo_stack.items = none :: es.map some ∧
    m.undo_stack.index ≤ es.length ∧
    ∀ e ∈ es, validEntry e = true

theorem set_ok_stack {α : Type} {m m' : ClusterMetadata α} {cs : List Nat}
    {f : String} {vs : Values α} {i : UpdateInfo}
    (h : m.set cs f vs = .ok (i, m')) :
    m'.undo_stack = m.undo_stack.add (some ⟨cs, f, vs, i⟩) ∧ validPair cs vs = true := by
  cases hv : validPair cs vs with
  | true =>
    rw [setRec_valid m cs f vs hv] at h
    injection h with h
    obtain ⟨h1, h2⟩ := Prod.mk.injEq .. ▸ h
    constructor
    · rw [← h2, ← h1]
    · rfl
  | false =>
    rw [set_invalid m cs f vs hv] at h
    cases h

theorem getitem_stack {α : Type} (m : ClusterMetadata α) (c : Nat) :
    ((m.getitem c).2.1).undo_stack = m.undo_stack := by
  unfold ClusterMetadata.getitem
  cases m.base.getitem c with
  | mk r q => rfl

theorem stackOK_step {α : Type} {m : ClusterMetadata α} (h : StackOK m)
    (op : MOp α) : StackOK (stepOp m op) := by
  obtain ⟨es, hitems, hk, hval⟩ := h
  cases op with
  | mset cs f vs =>
    cases hv : validPair cs vs with
    | false =>
      rw [stepOp_mset_invalid m cs f vs hv]
      exact ⟨es, hitems, hk, hval⟩
    | true =>
      have hset := setRec_valid m cs f vs hv
      have hstep : stepOp m (MOp.mset cs f vs)
          = { m with
              base := m.base.assign cs f vs
              undo_stack := m.undo_stack.add (some ⟨cs, f, vs, ⟨f, cs⟩⟩) } := by
        simp [stepOp, hset]
      rw [hstep]
      refine ⟨es.take m.undo_stack.index ++ [⟨cs, f, vs, ⟨f, cs⟩⟩], ?_, ?_, ?_⟩
      · show (m.undo_stack.add (some ⟨cs, f, vs, ⟨f, cs⟩⟩)).items = _
        unfold History.add
        rw [hitems]
        simp [List.take_succ_cons, List.map_take]
      · show m.undo_stack.index + 1 ≤ _
        simp [List.length_take]
        omega
      · intro e he
        rcases List.mem_append.mp he with h' | h'
        · exact hval e (List.mem_of_mem_take h')
        · rcases List.mem_singleton.mp h' with rfl
          exact hv
  | munset cs => exact ⟨es, hitems, hk, hval⟩
  | mget c =>
    show StackOK ((m.getitem c).2.1)
    rw [StackOK, getitem_stack]
    exact ⟨es, hitems, hk, hval⟩
  | mundo =>
    cases hidx : m.undo_stack.index with
    | zero =>
      have hu := undo_zero_eq m hidx
      have : stepOp m MOp.mundo = m := by simp [stepOp, hu]
      rw [this]
      exact ⟨es, hitems, hk, hval⟩
    | succ k' =>
      have hklt : k' < es.length := by omega
      have hu := undo_succ_eq m es k' hitems hidx hklt hval
      have : stepOp m MOp.mundo
          = { m with
              base := applyEntries ⟨m.base.fields, m.data_base⟩ (es.take k')
              undo_stack := ⟨m.undo_stack.items, k'⟩ } := by
        simp [stepOp, hu]
      rw [this]
      exact ⟨es, hitems, Nat.le_of_lt hklt, hval⟩
  | mredo =>
    by_cases hend : m.undo_stack.index + 1 < m.undo_stack.items.length
    · have hklt : m.undo_stack.index < es.length := by
        rw [hitems] at hend
        simpa using hend
      have hve : validEntry (es.get ⟨m.undo_stack.index, hklt⟩) = true :=
        hval _ (List.get_mem es m.undo_stack.index hklt)
      have hr := redo_step_eq m es m.undo_stack.index hitems rfl hklt hve
      have : stepOp m MOp.mredo
          = { m with
              base := m.base.assign (es.get ⟨m.undo_stack.index, hklt⟩).clusters
                (es.get ⟨m.undo_stack.index, hklt⟩).field
                (es.get ⟨m.undo_stack.index, hklt⟩).values
              undo_stack := ⟨m.undo_stack.items, m.undo_stack.index + 1⟩ } := by
        simp [stepOp, hr]
      rw [this]
      exact ⟨es, hitems, hklt, hval⟩
    · have hr := redo_end_eq m hend
      have : stepOp m MOp.mredo = m := by simp [stepOp, hr]
      rw [this]
      exact ⟨es, hitems, hk, hval⟩

theorem stackOK_run {α : Type} (ops : List (MOp α)) {m : ClusterMetadata α}
    (h : StackOK m) : StackOK (runOps m ops) := by
  induction ops generalizing m with
  | nil => exact h
  | cons op t ih => exact ih (stackOK_step h op)

end Phy

namespace Phy
open BaseClusterInfo (Values StoreError)

theorem stackOK_init {α : Type} (F : List (String × Dflt α))
    (d : List (Nat × Record α)) : StackOK (ClusterMetadata.init F d) :=
  ⟨[], rfl, Nat.le_refl 0, (by intro e he; cases he)⟩

/-- C8: on every reachable store, `undo` and `redo` never fail; `undo` at
the earliest cursor position returns an absent result and leaves the state
unchanged, as does `redo` at the end of history; and any successful `set`
truncates the redo history, so a `redo` right after it returns an absent
result and changes nothing. -/
theorem C8_undo_redo_total {α : Type} (F : List (String × Dflt α))
    (d : List (Nat × Record α)) (ops : List (MOp α)) :
    (∃ r, (runOps (ClusterMetadata.init F d) ops).undo = .ok r) ∧
    (∃ r, (runOps (ClusterMetadata.init F d) ops).redo = .ok r) ∧
    ((runOps (ClusterMetadata.init F d) ops).undo_stack.index = 0 →
      (runOps (ClusterMetadata.init F d) ops).undo
        = .ok (none, runOps (ClusterMetadata.init F d) ops)) ∧
    (¬ (runOps (ClusterMetadata.init F d) ops).undo_stack.index + 1
        < (runOps (ClusterMetadata.init F d) ops).undo_stack.items.length →
      (runOps (ClusterMetadata.init F d) ops).redo
        = .ok (none, runOps (ClusterMetadata.init F d) ops)) ∧
    (∀ (cs : List Nat) (f : String) (vs : Values α) (i : UpdateInfo)
        (m' : ClusterMetadata α),
      (runOps (ClusterMetadata.init F d) ops).set cs f vs = .ok (i, m') →
      m'.redo = .ok (none, m')) := by
  obtain ⟨es, hitems, hk, hval⟩ := stackOK_run ops (stackOK_init F d)
  refine ⟨?_, ?_, ?_, ?_, ?_⟩
  · cases hidx : (runOps (ClusterMetadata.init F d) ops).undo_stack.index with
    | zero => exact ⟨_, undo_zero_eq _ hidx⟩
    | succ k' =>
      have hklt : k' < es.length := by omega
      exact ⟨_, undo_succ_eq _ es k' hitems hidx hklt hval⟩
  · by_cases hend : (runOps (ClusterMetadata.init F d) ops).undo_stack.index + 1
        < (runOps (ClusterMetadata.init F d) ops).undo_stack.items.length
    · have hklt : (runOps (ClusterMetadata.init F d) ops).undo_stack.index
          < es.length := by
        rw [hitems] at hend
        simpa using hend
      exact ⟨_, redo_step_eq _ es _ hitems rfl hklt
        (hval _ (List.get_mem es _ hklt))⟩
    · exact ⟨_, redo_end_eq _ hend⟩
  · intro hidx
    exact undo_zero_eq _ hidx
  · intro hend
    exact redo_end_eq _ hend
  · intro cs f vs i m' hset
    obtain ⟨hstack, hv⟩ := set_ok_stack hset
    apply redo_end_eq
    rw [hstack]
    show ¬ (runOps (ClusterMetadata.init F d) ops).undo_stack.index + 1 + 1
        < ((runOps (ClusterMetadata.init F d) ops).undo_stack.items.take
            ((runOps (ClusterMetadata.init F d) ops).undo_stack.index + 1)
          ++ [(some (⟨cs, f, vs, i⟩ : HEntry α) : Entry α)]).length
    rw [List.length_append, List.length_take]
    simp

/-- Witness for C8: the fresh store sits at both history boundaries, and a
concrete `set` is followed by an absent `redo`. -/
theorem C8_witness :
    ((runOps (ClusterMetadata.init exFields []) ([] : List (MOp Nat))).undo_stack.index = 0 ∧
      ¬ (runOps (ClusterMetadata.init exFields []) ([] : List (MOp Nat))).undo_stack.index + 1
        < (runOps (ClusterMetadata.init exFields [])
            ([] : List (MOp Nat))).undo_stack.items.length) ∧
    (∃ r, (runOps (ClusterMetadata.init exFields []) ([] : List (MOp Nat))).undo = .ok r) ∧
    ((runOps (ClusterMetadata.init exFields []) ([] : List (MOp Nat))).undo
      = .ok (none, runOps (ClusterMetadata.init exFields []) ([] : List (MOp Nat)))) ∧
    ((runOps (ClusterMetadata.init exFields []) ([] : List (MOp Nat))).redo
      = .ok (none, runOps (ClusterMetadata.init exFields []) ([] : List (MOp Nat)))) ∧
    (∃ m', (runOps (ClusterMetadata.init exFields []) ([] : List (MOp Nat))).set
        [5] "group" (Values.scalar 2) = .ok ((⟨"group", [5]⟩ : UpdateInfo), m') ∧
      m'.redo = .ok (none, m')) := by
  have h := C8_undo_redo_total exFields [] ([] : List (MOp Nat))
  have hset := setRec_valid (runOps (ClusterMetadata.init exFields [])
    ([] : List (MOp Nat))) [5] "group" (Values.scalar 2) rfl
  exact ⟨⟨rfl, by decide⟩, h.1, h.2.2.1 rfl, h.2.2.2.1 (by decide),
    ⟨_, hset, h.2.2.2.2 [5] "group" (Values.scalar 2) ⟨"group", [5]⟩ _ hset⟩⟩

end Phy

namespace Phy
open BaseClusterInfo (Values StoreError)

/-- The two-set operation list used by the C1 witness. -/
def exSetOps : List (List Nat × String × Values Nat) :=
  [([5], "group", Values.scalar 2), ([5], "group", Values.scalar 0)]

/-- Witness for C1: two valid sets, then two undos, then two redos. -/
theorem C1_witness :
    (∀ p ∈ exSetOps, validPair p.1 p.2.2 = true) ∧
    ((runOps (runOps (ClusterMetadata.init exFields [])
        (exSetOps.map fun p => MOp.mset p.1 p.2.1 p.2.2))
        (List.replicate exSetOps.length MOp.mundo)).base.data
      = (runOps (runOps (ClusterMetadata.init exFields [])
          (exSetOps.map fun p => MOp.mset p.1 p.2.1 p.2.2))
          (List.replicate exSetOps.length MOp.mundo)).data_base ∧
    (runOps (runOps (ClusterMetadata.init exFields [])
        (exSetOps.map fun p => MOp.mset p.1 p.2.1 p.2.2))
        (List.replicate exSetOps.length MOp.mundo)).data_base
      = (ClusterMetadata.init exFields []).data_base ∧
    runOps (runOps (runOps (ClusterMetadata.init exFields [])
        (exSetOps.map fun p => MOp.mset p.1 p.2.1 p.2.2))
        (List.replicate exSetOps.length MOp.mundo))
        (List.replicate exSetOps.length MOp.mredo)
      = runOps (ClusterMetadata.init exFields [])
          (exSetOps.map fun p => MOp.mset p.1 p.2.1 p.2.2)) :=
  ⟨by decide, C1_undo_redo_roundtrip exFields [] exSetOps (by decide)⟩

/-- The pure operation list (one set, one undo) used by the C2 witness. -/
def exPureOps : List (MOp Nat) := [MOp.mset [5] "group" (Values.scalar 2), MOp.mundo]

/-- Witness for C2: a concrete set-then-undo run, with the purity side
condition discharged by evaluation. -/
theorem C2_witness :
    ((runOps (ClusterMetadata.init exFields []) exPureOps).data_base
      = (ClusterMetadata.init exFields []).data_base) ∧
    (∃ m', (runOps (ClusterMetadata.init exFields []) exPureOps).replayFromBaseline
        = .ok m' ∧
      m'.base.data = (runOps (ClusterMetadata.init exFields []) exPureOps).base.data) :=
  ⟨(C2_replay_invariant exFields [] exPureOps).1,
   (C2_replay_invariant exFields [] exPureOps).2 (by decide)⟩

end Phy
namespace Phy
open BaseClusterInfo (Values StoreError)

/-- The value the assignment loop leaves for key `c` given the ordered
`(cluster, value)` pairs it assigns: the last pair keyed `c`, if any. -/
def lastVal {α : Type} (c : Nat) : List (Nat × α) → Option α
  | [] => none
  | (c', v) :: t =>
    match lastVal c t with
    | some w => some w
    | none => if c = c' then some v else none

theorem setOne_data_self {α : Type} (s : BaseClusterInfo α) (c : Nat) (f : String)
    (v : α) :
    alookup c (s.setOne c f v).data
      = some (rupdate f v (match alookup c s.data with
          | some r => r
          | none => default_info s.fields c)) := by
  unfold BaseClusterInfo.setOne
  cases alookup c s.data <;> simp [alookup_dupdate_self]

theorem setOne_data_other {α : Type} (s : BaseClusterInfo α) {c c' : Nat}
    (hne : c ≠ c') (f : String) (v : α) :
    alookup c (s.setOne c' f v).data = alookup c s.data := by
  unfold BaseClusterInfo.setOne
  cases alookup c' s.data <;> simp [alookup_dupdate_ne hne]

theorem alookup_pairsFold {α : Type} (f : String) :
    ∀ (ps : List (Nat × α)) (s : BaseClusterInfo α) (c : Nat),
    alookup c (ps.foldl (fun s p => s.setOne p.1 f p.2) s).data
      = match lastVal c ps with
        | none => alookup c s.data
        | some v =>
          some (rupdate f v (match alookup c s.data with
            | some r => r
            | none => default_info s.fields c)) := by
  intro ps
  induction ps with
  | nil => intro s c; rfl
  | cons p t ih =>
    intro s c
    obtain ⟨c', v'⟩ := p
    rw [List.foldl_cons]
    rw [ih (s.setOne c' f v') c]
    by_cases hc : c = c'
    · subst hc
      rw [setOne_data_self s c f v']
      rw [fields_setOne]
      cases hlv : lastVal c t with
      | none =>
        show some (rupdate f v' _) = _
        rw [show lastVal c ((c, v') :: t)
              = match lastVal c t with
                | some w => some w
                | none => if c = c then some v' else none from rfl]
        rw [hlv]
        simp
      | some w =>
        rw [show lastVal c ((c, v') :: t)
              = match lastVal c t with
                | some w => some w
                | none => if c = c then some v' else none from rfl]
        rw [hlv]
        dsimp only
        rw [rupdate_rupdate_same]
    · rw [setOne_data_other s hc f v']
      rw [fields_setOne]
      rw [show lastVal c ((c', v') :: t)
            = match lastVal c t with
              | some w => some w
              | none => if c = c' then some v' else none from rfl]
      cases hlv : lastVal c t with
      | none => simp [hc]
      | some w => rfl

end Phy

namespace Phy
open BaseClusterInfo (Values StoreError)

theorem lastVal_not_mem {α : Type} {c : Nat} :
    ∀ {ps : List (Nat × α)}, (∀ p ∈ ps, p.1 ≠ c) → lastVal c ps = none := by
  intro ps
  induction ps with
  | nil => intro; rfl
  | cons p t ih =>
    intro h
    obtain ⟨c', v'⟩ := p
    have hne : c ≠ c' := fun hEq => h (c', v') (List.mem_cons_self _ t) hEq.symm
    show (match lastVal c t with
      | some w => some w
      | none => if c = c' then some v' else none) = none
    rw [ih (fun q hq => h q (List.mem_cons_of_mem _ hq))]
    simp [hne]

end Phy
namespace Phy
open BaseClusterInfo (Values StoreError)

theorem lastVal_some_of_mem {α : Type} {c : Nat} :
    ∀ {ps : List (Nat × α)}, c ∈ ps.map Prod.fst → (lastVal c ps).isSome = true := by
  intro ps
  induction ps with
  | nil => intro h; cases h
  | cons p t ih =>
    intro h
    obtain ⟨c', v'⟩ := p
    show (match lastVal c t with
      | some w => some w
      | none => if c = c' then some v' else none).isSome = true
    cases hlv : lastVal c t with
    | some w => simp
    | none =>
      rw [List.map_cons] at h
      rcases List.mem_cons.mp h with hc | hmemt
      · simp [hc]
      · have hs := ih hmemt
        rw [hlv] at hs
        cases hs

theorem lastVal_map_const {α : Type} (c : Nat) (v : α) :
    ∀ (clusters : List Nat),
      lastVal c (clusters.map (fun x => (x, v))) = none ∨
      lastVal c (clusters.map (fun x => (x, v))) = some v := by
  intro clusters
  induction clusters with
  | nil => exact Or.inl rfl
  | cons x t ih =>
    show (match lastVal c (t.map (fun x => (x, v))) with
      | some w => some w
      | none => if c = x then some v else none) = none ∨
      (match lastVal c (t.map (fun x => (x, v))) with
      | some w => some w
      | none => if c = x then some v else none) = some v
    rcases ih with hnone | hsome
    · rw [hnone]
      by_cases hc : c = x
      · exact Or.inr (by simp [hc])
      · exact Or.inl (by simp [hc])
    · rw [hsome]
      exact Or.inr rfl

theorem lastVal_scalar {α : Type} (c : Nat) (v : α) (clusters : List Nat)
    (hmem : c ∈ clusters) :
    lastVal c (clusters.map (fun x => (x, v))) = some v := by
  have hs : (lastVal c (clusters.map (fun x => (x, v)))).isSome = true := by
    apply lastVal_some_of_mem
    simp only [List.map_map]
    simpa using hmem
  rcases lastVal_map_const c v clusters with hnone | hsome
  · rw [hnone] at hs
    cases hs
  · exact hsome

theorem lastVal_zip {α : Type} :
    ∀ (cs : List Nat) (vs : List α) (i : Nat) (hi : i < cs.length)
      (hl : i < vs.length), cs.Nodup →
      lastVal (cs.get ⟨i, hi⟩) (cs.zip vs) = some (vs.get ⟨i, hl⟩) := by
  intro cs
  induction cs with
  | nil => intro vs i hi; cases hi
  | cons x t ih =>
    intro vs i hi hl hnd
    cases vs with
    | nil => cases hl
    | cons w u =>
      cases i with
      | zero =>
        show (match lastVal x (t.zip u) with
          | some z => some z
          | none => if x = x then some w else none) = some w
        have hnone : lastVal x (t.zip u) = none := by
          apply lastVal_not_mem
          intro p hp hEq
          have hx : p.1 ∈ t := (List.of_mem_zip hp).1
          rw [hEq] at hx
          exact (List.nodup_cons.mp hnd).1 hx
        rw [hnone]
        simp
      | succ j =>
        have hj : j < t.length := Nat.lt_of_succ_lt_succ hi
        have hju : j < u.length := Nat.lt_of_succ_lt_succ hl
        show (match lastVal (t.get ⟨j, hj⟩) (t.zip u) with
          | some z => some z
          | none => if t.get ⟨j, hj⟩ = x then some w else none) = some (u.get ⟨j, hju⟩)
        rw [ih u j hj hju (List.nodup_cons.mp hnd).2]

end Phy

namespace Phy
open BaseClusterInfo (Values StoreError)

/-- C9: every successful `set(ids, field, values)` returns a
change-descriptor whose description is the field name and whose changed-id
list is exactly the target ids; and every target id not yet present in the
store ends up bound to its full default record with only the named field
overwritten (scalar values broadcast; sequence values assigned
positionally). -/
theorem C9_set_descriptor_and_defaults {α : Type} (m : ClusterMetadata α)
    (cs : List Nat) (f : String) (vs : Values α) (hv : validPair cs vs = true) :
    ∃ m', m.set cs f vs = .ok (⟨f, cs⟩, m') ∧
      (∀ v, vs = Values.scalar v → ∀ c ∈ cs, alookup c m.base.data = none →
        alookup c m'.base.data = some (rupdate f v (default_info m.base.fields c))) ∧
      (∀ l, vs = Values.seq l → cs.Nodup →
        ∀ i (hi : i < cs.length) (hl : i < l.length),
          alookup (cs.get ⟨i, hi⟩) m.base.data = none →
          alookup (cs.get ⟨i, hi⟩) m'.base.data
            = some (rupdate f (l.get ⟨i, hl⟩)
                (default_info m.base.fields (cs.get ⟨i, hi⟩)))) := by
  refine ⟨_, setRec_valid m cs f vs hv, ?_, ?_⟩
  · rintro v rfl c hmem habs
    show alookup c (m.base.assign cs f (Values.scalar v)).data = _
    have hfold : m.base.assign cs f (Values.scalar v)
        = ((cs.map (fun x => (x, v))).foldl (fun s p => s.setOne p.1 f p.2) m.base) := by
      rw [List.foldl_map]
      rfl
    rw [hfold, alookup_pairsFold, lastVal_scalar c v cs hmem]
    dsimp only
    rw [habs]
  · rintro l rfl hnd i hi hl habs
    show alookup _ (m.base.assign cs f (Values.seq l)).data = _
    rw [show m.base.assign cs f (Values.seq l)
          = ((cs.zip l).foldl (fun s p => s.setOne p.1 f p.2) m.base) from rfl]
    rw [alookup_pairsFold, lastVal_zip cs l i hi hl hnd]
    dsimp only
    rw [habs]

/-- Witness for C9: a fresh store, two fresh target ids, positional values. -/
theorem C9_witness :
    validPair [5, 6] (Values.seq ([8, 9] : List Nat)) = true ∧
    (∃ m', (ClusterMetadata.init exFields []).set [5, 6] "group"
        (Values.seq [8, 9]) = .ok ((⟨"group", [5, 6]⟩ : UpdateInfo), m') ∧
      (∀ v, (Values.seq ([8, 9] : List Nat)) = Values.scalar v →
        ∀ c ∈ [5, 6], alookup c (ClusterMetadata.init exFields []).base.data = none →
        alookup c m'.base.data
          = some (rupdate "group" v
              (default_info (ClusterMetadata.init exFields []).base.fields c))) ∧
      (∀ l, (Values.seq ([8, 9] : List Nat)) = Values.seq l → ([5, 6] : List Nat).Nodup →
        ∀ i (hi : i < ([5, 6] : List Nat).length) (hl : i < l.length),
          alookup (([5, 6] : List Nat).get ⟨i, hi⟩)
            (ClusterMetadata.init exFields []).base.data = none →
          alookup (([5, 6] : List Nat).get ⟨i, hi⟩) m'.base.data
            = some (rupdate "group" (l.get ⟨i, hl⟩)
                (default_info (ClusterMetadata.init exFields []).base.fields
                  (([5, 6] : List Nat).get ⟨i, hi⟩))))) :=
  ⟨by decide,
   C9_set_descriptor_and_defaults (ClusterMetadata.init exFields []) [5, 6] "group"
     (Values.seq [8, 9]) (by decide)⟩

end Phy
